import Mathlib

/-!
Verification of the suggestion pipeline of a small AI code assistant
(an editor front end in `code_editor.py` plus a completion engine in
`ai_completion_engine.py`).  Python strings are modelled as `List Char`,
the Tk text widget as a flat character sequence in which every character
carries its "ghost_text" tag flag, timestamps as rationals, and the
completion provider as an explicit outcome parameter.  All definitions
are translated from the source files; definitions whose name ends in
`Spec` follow the specification's words instead, for comparison.
-/

/-! ### Python string primitives on `List Char` -/

/-- Whitespace characters of Python `str.split` / `str.strip`. -/
def pyIsSpace (c : Char) : Bool :=
  c = ' ' || c = '\t' || c = '\n' || c = '\r' || c = '\x0b' || c = '\x0c'

/-- Python `str.lower` (ASCII case folding, which the source relies on). -/
def pyLower (s : List Char) : List Char := s.map Char.toLower

/-- Python `haystack.find(needle)`: index of the first occurrence, if any. -/
def pyFind (needle : List Char) : List Char → Option Nat
  | [] => if needle.isPrefixOf ([] : List Char) then some 0 else none
  | c :: rest =>
      if needle.isPrefixOf (c :: rest) then some 0
      else (pyFind needle rest).map (· + 1)

/-- Helper of `pySplit`, carrying the (reversed) token being accumulated. -/
def pySplitAux : List Char → List Char → List (List Char)
  | [], acc => if acc = [] then [] else [acc.reverse]
  | c :: rest, acc =>
      if pyIsSpace c then
        if acc = [] then pySplitAux rest []
        else acc.reverse :: pySplitAux rest []
      else pySplitAux rest (c :: acc)

/-- Python `str.split()` with no argument: split on whitespace runs, no
empty tokens. -/
def pySplit (s : List Char) : List (List Char) := pySplitAux s []

/-- Python `str.strip()` with no argument. -/
def pyStrip (s : List Char) : List Char :=
  ((s.dropWhile pyIsSpace).reverse.dropWhile pyIsSpace).reverse

/-- Python `list.index(x)`: position of the first element equal to `x`
(the source only calls it on members, so the out-of-range result is
irrelevant). -/
def pyIndex (x : List Char) : List (List Char) → Nat
  | [] => 0
  | w :: ws => if w = x then 0 else pyIndex x ws + 1

/-! ### The overlap resolver (`_trim_completion_overlap`, code_editor.py) -/

/-- Strategy 3 of `_trim_completion_overlap`: scan the completion's tokens
for one that starts (case-insensitively) with the current word; keep its
remainder, then the tokens after the first occurrence of that token
(Python `completion_words.index(word)`), joined by single spaces. -/
def trimStrategy3 (current_word : List Char) (completion_words : List (List Char)) :
    Option (List Char) :=
  match completion_words.find? (fun w => (pyLower current_word).isPrefixOf (pyLower w)) with
  | some w =>
      let remaining_of_word := w.drop current_word.length
      let remaining_words := completion_words.drop (pyIndex w completion_words + 1)
      some (if remaining_words = [] then remaining_of_word
            else remaining_of_word ++ [' '] ++ List.intercalate [' '] remaining_words)
  | none => none

/-- Translation of `_trim_completion_overlap` from src/code_editor.py:
remove the overlap between the word the user is typing and the AI
completion, trying in order an (ASCII case-insensitive) whole-prefix
match, a substring match, a token-prefix match, and a fallback that
returns the completion unchanged. -/
def trim_completion_overlap (current_word completion : List Char) : List Char :=
  if current_word = [] then completion
  else if (pyLower current_word).isPrefixOf (pyLower completion) then
    completion.drop current_word.length
  else
    match pyFind (pyLower current_word) (pyLower completion) with
    | some pos => completion.drop (pos + current_word.length)
    | none =>
        match trimStrategy3 current_word (pySplit completion) with
        | some t => t
        | none => completion

/-- Rule 3 as the specification words it: scan the tokens in order and, at
the first token that starts with the current word, return that token's
remainder followed by the remaining (later) tokens joined by single
spaces. -/
def resolveTokenRuleSpec (current_word : List Char) : List (List Char) → Option (List Char)
  | [] => none
  | w :: ws =>
      if (pyLower current_word).isPrefixOf (pyLower w) then
        some (if ws = [] then w.drop current_word.length
              else w.drop current_word.length ++ [' '] ++ List.intercalate [' '] ws)
      else resolveTokenRuleSpec current_word ws

/-- The overlap resolver exactly as the specification's resolution order
reads (rule 0: empty current word; rule 1: prefix; rule 2: first
substring occurrence; rule 3: token prefix; rule 4: unchanged). -/
def resolveSpec (current_word completion : List Char) : List Char :=
  if current_word = [] then completion
  else if (pyLower current_word).isPrefixOf (pyLower completion) then
    completion.drop current_word.length
  else
    match pyFind (pyLower current_word) (pyLower completion) with
    | some pos => completion.drop (pos + current_word.length)
    | none =>
        match resolveTokenRuleSpec current_word (pySplit completion) with
        | some t => t
        | none => completion

lemma trimStrategy3_eq_spec (current_word : List Char) (ws : List (List Char)) :
    trimStrategy3 current_word ws = resolveTokenRuleSpec current_word ws := by
  induction ws with
  | nil => rfl
  | cons w ws ih =>
      by_cases h : ((pyLower current_word).isPrefixOf (pyLower w)) = true
      · simp [trimStrategy3, resolveTokenRuleSpec, List.find?, h, pyIndex]
      · rw [resolveTokenRuleSpec, if_neg (by simpa using h), ← ih]
        cases hf : List.find? (fun w => (pyLower current_word).isPrefixOf (pyLower w)) ws with
        | none => simp [trimStrategy3, List.find?, h, hf]
        | some w' =>
            have hw' : ((pyLower current_word).isPrefixOf (pyLower w')) = true :=
              @List.find?_some _ (fun w => (pyLower current_word).isPrefixOf (pyLower w)) w' ws hf
            have hne : w ≠ w' := by
              intro he
              rw [he] at h
              exact h hw'
            simp only [trimStrategy3, List.find?, h, hf, pyIndex, if_neg hne]
            simp [List.drop_succ_cons]

example : trim_completion_overlap ("pri".data) ("print(x)".data) = ("nt(x)".data) := by decide
example : trim_completion_overlap ("fo".data) ("foo bar baz".data) = ("o bar baz".data) := by
  decide
example : trim_completion_overlap ([]) ("anything".data) = ("anything".data) := by decide

/-- C1: the overlap resolver follows the spec's resolution order with
first match winning, case-insensitive matching and case-preserving
output (rule 0: empty current word returns the completion unchanged;
rule 1: prefix; rule 2: first substring occurrence; rule 3: token
prefix with the remaining tokens joined by single spaces; rule 4:
unchanged), and in particular resolving current word "val" against
completion "the value is here" yields "ue is here". -/
theorem overlap_resolver_matches_spec :
    (∀ current_word completion,
        trim_completion_overlap current_word completion
          = resolveSpec current_word completion) ∧
    trim_completion_overlap ("val".data) ("the value is here".data) = ("ue is here".data) := by
  constructor
  · intro current_word completion
    unfold trim_completion_overlap resolveSpec
    rw [trimStrategy3_eq_spec]
  · decide

/-! ### The completion engine (ai_completion_engine.py) -/

/-- The engine's `_completion_cache`: a Python dict, i.e. an
insertion-ordered association list with unique keys, from cache key to
completion text. -/
abbrev Cache := List (List Char × List Char)

/-- Python dict membership `key in d`. -/
def dictHasKey (d : Cache) (k : List Char) : Bool :=
  d.any (fun p => decide (p.1 = k))

/-- Python dict lookup `d[k]` (as an option, for the `key in d` guard). -/
def dictGet (d : Cache) (k : List Char) : Option (List Char) :=
  (d.find? (fun p => decide (p.1 = k))).map Prod.snd

/-- Python dict assignment `d[k] = v`: replace the value in place when
the key is present (keeping insertion order), otherwise append. -/
def dictSet (d : Cache) (k v : List Char) : Cache :=
  if dictHasKey d k then d.map (fun p => if p.1 = k then (k, v) else p)
  else d ++ [(k, v)]

/-- The cache write of `get_completion` (lines 189-198): store the entry,
then, if the cache now holds more than 50 entries, delete the oldest key.
Python's `next(iter(dict))` is the first inserted key, so with unique keys
the deletion removes the first entry of the association list. -/
def cache_put (d : Cache) (k v : List Char) : Cache :=
  let d' := dictSet d k v
  if 50 < d'.length then d'.tail else d'

/-- One step of folding `cache_put` over a list of key/value pairs. -/
def cacheFoldStep (d : Cache) (p : List Char × List Char) : Cache :=
  cache_put d p.1 p.2

/-- Repeated cache writes starting from the empty cache. -/
def cache_insertAll (ps : List (List Char × List Char)) : Cache :=
  ps.foldl cacheFoldStep []

lemma dictHasKey_eq_false {d : Cache} {k : List Char}
    (h : k ∉ d.map Prod.fst) : dictHasKey d k = false := by
  simp only [dictHasKey, List.any_eq_false, decide_eq_true_eq]
  intro p hp hpk
  exact h (List.mem_map.mpr ⟨p, hp, hpk⟩)

lemma dictSet_of_new {d : Cache} {k v : List Char} (h : k ∉ d.map Prod.fst) :
    dictSet d k v = d ++ [(k, v)] := by
  rw [dictSet, dictHasKey_eq_false h]
  simp

lemma foldl_cache_put (ps : List (List Char × List Char)) :
    ∀ d : Cache, ((d ++ ps).map Prod.fst).Nodup → d.length ≤ 50 →
      ps.foldl cacheFoldStep d = (d ++ ps).drop ((d ++ ps).length - 50) := by
  induction ps with
  | nil =>
      intro d _ hlen
      simp [Nat.sub_eq_zero_of_le hlen]
  | cons p ps ih =>
      intro d hnd hlen
      have hkey : p.1 ∉ d.map Prod.fst := by
        intro hk
        simp only [List.map_append, List.map_cons, List.nodup_append] at hnd
        exact hnd.2.2 hk (by simp)
      have hstep : cacheFoldStep d p
          = if 50 < d.length + 1 then (d ++ [p]).tail else d ++ [p] := by
        have h1 : dictSet d p.1 p.2 = d ++ [p] := by
          rw [dictSet_of_new hkey]
        simp only [cacheFoldStep, cache_put, h1, List.length_append, List.length_cons,
          List.length_nil, Nat.zero_add]
      rw [List.foldl_cons, hstep]
      by_cases hfull : 50 < d.length + 1
      · rw [if_pos hfull]
        have hd50 : d.length = 50 := by omega
        cases d with
        | nil => simp at hd50
        | cons e d' =>
            simp only [List.length_cons] at hd50
            simp only [List.cons_append, List.tail_cons]
            have hnd' : (((d' ++ [p]) ++ ps).map Prod.fst).Nodup := by
              rw [List.append_assoc, List.singleton_append]
              simp only [List.cons_append, List.map_cons, List.nodup_cons] at hnd
              exact hnd.2
            have hlen' : (d' ++ [p]).length ≤ 50 := by
              simp only [List.length_append, List.length_cons, List.length_nil]
              omega
            rw [ih (d' ++ [p]) hnd' hlen', List.append_assoc, List.singleton_append]
            have h1 : (d' ++ p :: ps).length - 50 = ps.length := by
              simp only [List.length_append, List.length_cons]
              omega
            have h2 : (e :: (d' ++ p :: ps)).length - 50 = ps.length + 1 := by
              simp only [List.length_cons, List.length_append]
              omega
            rw [h1, h2, List.drop_succ_cons]
      · rw [if_neg hfull]
        have hnd' : (((d ++ [p]) ++ ps).map Prod.fst).Nodup := by
          rw [List.append_assoc, List.singleton_append]
          exact hnd
        have hlen' : (d ++ [p]).length ≤ 50 := by
          simp only [List.length_append, List.length_cons, List.length_nil]
          omega
        rw [ih (d ++ [p]) hnd' hlen', List.append_assoc, List.singleton_append]

/-! ### Debouncing, fingerprinting and the request flow -/

/-- Translation of `_should_debounce`: suppress (`true`) when the time
since the last admitted request is below the configured delay, leaving
the stored timestamp unchanged; otherwise admit (`false`) and record
`now` as the new last-request time.  Times are in milliseconds. -/
def should_debounce (delay_ms last_request_time now : ℚ) : Bool × ℚ :=
  if now - last_request_time < delay_ms then (true, last_request_time)
  else (false, now)

/-- Python `s[-n:]`. -/
def takeLast (n : Nat) (s : List Char) : List Char := s.drop (s.length - n)

/-- The character removal performed by `_create_cache_key`:
`.replace(' ', '').replace('\n', '')` deletes space and newline
characters (and nothing else). -/
def removeSpaceNewline (s : List Char) : List Char :=
  s.filter (fun c => !(c = ' ' || c = '\n'))

/-- Translation of `_create_cache_key`: concatenate the last 100
characters of the before-context, the cursor line, and the first 50
characters of the after-context, then delete spaces and newlines. -/
def create_cache_key (context_before context_after cursor_line : List Char) : List Char :=
  removeSpaceNewline (takeLast 100 context_before ++ cursor_line ++ context_after.take 50)

/-- Mutable engine state: the debounce timestamp and the completion cache. -/
structure EngineState where
  last_request_time : ℚ
  completion_cache : Cache
deriving DecidableEq

/-- Outcome at the provider boundary inside `get_completion`'s `try`
block: an exception anywhere in the block, a missing client, a response
without usable content, or response content. -/
inductive ProviderOutcome
  | raises (msg : List Char)
  | clientMissing
  | noContent
  | content (text : List Char)
deriving DecidableEq

/-- Translation of `AICompletionEngine.get_completion`: debounce check
(which updates the timestamp when the call is admitted), cache lookup,
then the guarded provider call; on content the stripped completion is
cached (with FIFO eviction) and returned, while an exception is caught
and yields no suggestion; the cache is touched only on the content path. -/
def get_completion (st : EngineState) (now delay_ms : ℚ)
    (context_before cursor_line context_after : List Char)
    (provider : ProviderOutcome) : Option (List Char) × EngineState :=
  let r := should_debounce delay_ms st.last_request_time now
  let st' := { st with last_request_time := r.2 }
  if r.1 then (none, st')
  else
    let cache_key := create_cache_key context_before context_after cursor_line
    match dictGet st'.completion_cache cache_key with
    | some cached => (some cached, st')
    | none =>
        match provider with
        | .raises _ => (none, st')
        | .clientMissing => (none, st')
        | .noContent => (none, st')
        | .content text =>
            let completion := pyStrip text
            (some completion,
              { st' with completion_cache := cache_put st'.completion_cache cache_key completion })

/-- C2: caching distinct fingerprints is pure FIFO at capacity 50: after
inserting n distinct entries the cache holds exactly the min(n, 50)
most-recently-inserted entries (the earliest-inserted entry is evicted
whenever an insertion exceeds the capacity), and a cache hit in
`get_completion` returns the stored completion without changing the
cache at all, so lookups never refresh recency or alter eviction order. -/
theorem result_cache_fifo (ps : List (List Char × List Char))
    (h : (ps.map Prod.fst).Nodup) :
    cache_insertAll ps = ps.drop (ps.length - 50) ∧
    (cache_insertAll ps).length = min ps.length 50 ∧
    (∀ (st : EngineState) (now delay_ms : ℚ)
        (context_before cursor_line context_after : List Char)
        (provider : ProviderOutcome) (cached : List Char),
      ¬ now - st.last_request_time < delay_ms →
      dictGet st.completion_cache
          (create_cache_key context_before context_after cursor_line) = some cached →
      get_completion st now delay_ms context_before cursor_line context_after provider
        = (some cached, { st with last_request_time := now })) := by
  have hall : cache_insertAll ps = ps.drop (ps.length - 50) := by
    have := foldl_cache_put ps [] (by simpa using h) (by simp)
    simpa [cache_insertAll] using this
  refine ⟨hall, ?_, ?_⟩
  · rw [hall, List.length_drop]
    omega
  · intro st now delay_ms context_before cursor_line context_after provider cached hpass hhit
    simp [get_completion, should_debounce, hpass, hhit]

/-- Witness for C2: two distinct insertions are retained in order, and a
concrete cache hit leaves the one-entry cache unchanged. -/
theorem result_cache_fifo_witness :
    cache_insertAll [(("k1").data, ("v1").data), (("k2").data, ("v2").data)]
      = [(("k1").data, ("v1").data), (("k2").data, ("v2").data)] ∧
    get_completion ⟨0, [(create_cache_key ("b").data ("a").data ("l").data, ("v").data)]⟩
        1000 500 (("b").data) (("l").data) (("a").data) .noContent
      = (some (("v").data),
         ⟨1000, [(create_cache_key ("b").data ("a").data ("l").data, ("v").data)]⟩) := by
  constructor
  · have := (result_cache_fifo
      [(("k1").data, ("v1").data), (("k2").data, ("v2").data)] (by decide)).1
    simpa using this
  · exact (result_cache_fifo [] (by decide)).2.2
      ⟨0, [(create_cache_key ("b").data ("a").data ("l").data, ("v").data)]⟩
      1000 500 (("b").data) (("l").data) (("a").data) .noContent (("v").data)
      (by norm_num) (by decide)

/-- C3: for two sequential triggers whose gap is below the configured
delay, the rate limiter admits at most one: a suppressed check leaves
the stored timestamp unchanged, an admitted check updates it to the
check's time, and if the first check is admitted the second is
suppressed, so the pair can never both reach the provider. -/
theorem rate_limiter_pair (delay_ms last t1 t2 : ℚ) (hgap : t2 - t1 < delay_ms) :
    ((should_debounce delay_ms last t1).1 = true →
        (should_debounce delay_ms last t1).2 = last) ∧
    ((should_debounce delay_ms last t1).1 = false →
        (should_debounce delay_ms last t1).2 = t1) ∧
    ((should_debounce delay_ms last t1).1 = false →
        (should_debounce delay_ms (should_debounce delay_ms last t1).2 t2).1 = true) ∧
    ¬ ((should_debounce delay_ms last t1).1 = false ∧
        (should_debounce delay_ms (should_debounce delay_ms last t1).2 t2).1 = false) := by
  by_cases h1 : t1 - last < delay_ms
  · simp [should_debounce, h1]
  · simp [should_debounce, h1, hgap]

/-- Witness for C3 at delay 500 ms, last admitted request at 0, triggers
at 1000 and 1200. -/
theorem rate_limiter_pair_witness :
    ((should_debounce 500 0 1000).1 = true → (should_debounce 500 0 1000).2 = 0) ∧
    ((should_debounce 500 0 1000).1 = false → (should_debounce 500 0 1000).2 = 1000) ∧
    ((should_debounce 500 0 1000).1 = false →
        (should_debounce 500 (should_debounce 500 0 1000).2 1200).1 = true) ∧
    ¬ ((should_debounce 500 0 1000).1 = false ∧
        (should_debounce 500 (should_debounce 500 0 1000).2 1200).1 = false) :=
  rate_limiter_pair 500 0 1000 1200 (by norm_num)

/-- Whitespace normalization as the specification's words read
("with whitespace normalized out"): remove every Python whitespace
character. -/
def normalizeWhitespaceSpec (s : List Char) : List Char :=
  s.filter (fun c => !pyIsSpace c)

/-- C7 counterexample: two context windows that agree on every truncated
slice after whitespace normalization (before-contexts differ only by a
tab) nevertheless produce different fingerprints, because
`_create_cache_key` removes only spaces and newlines, not tabs. -/
theorem fingerprint_whitespace_counterexample :
    normalizeWhitespaceSpec (takeLast 100 ("a\tb".data))
        = normalizeWhitespaceSpec (takeLast 100 ("ab".data)) ∧
    normalizeWhitespaceSpec ("x".data) = normalizeWhitespaceSpec ("x".data) ∧
    normalizeWhitespaceSpec (List.take 50 []) = normalizeWhitespaceSpec (List.take 50 []) ∧
    create_cache_key ("a\tb".data) ([]) ("x".data)
      ≠ create_cache_key ("ab".data) ([]) ("x".data) := by
  decide

/-- C7 amended: the fingerprint is computed deterministically from the
last 100 characters of the before-context, the current-line prefix and
the first 50 characters of the after-context with spaces and newlines
(only) removed from the concatenation, so any two context windows that
agree on those truncated slices after space-and-newline removal produce
the same fingerprint, even if the windows differ beyond the truncation
bounds. -/
theorem fingerprint_determined_by_slices
    (b1 l1 a1 b2 l2 a2 : List Char)
    (hb : removeSpaceNewline (takeLast 100 b1) = removeSpaceNewline (takeLast 100 b2))
    (hl : removeSpaceNewline l1 = removeSpaceNewline l2)
    (ha : removeSpaceNewline (a1.take 50) = removeSpaceNewline (a2.take 50)) :
    create_cache_key b1 a1 l1 = create_cache_key b2 a2 l2 := by
  simp only [create_cache_key, removeSpaceNewline, List.filter_append] at hb hl ha ⊢
  rw [hb, hl, ha]

/-- Witness for C7 amended: the before-contexts differ by a space beyond
nothing but normalize alike, and the fingerprints agree. -/
theorem fingerprint_determined_by_slices_witness :
    create_cache_key ("a b".data) ("y ".data) ("x".data)
      = create_cache_key ("ab".data) ("y".data) (" x".data) :=
  fingerprint_determined_by_slices ("a b".data) ("x".data) ("y ".data)
    ("ab".data) (" x".data) ("y".data) (by decide) (by decide) (by decide)

/-- C8: an exception raised by the completion provider inside
`get_completion` is caught at the engine boundary: the call returns no
suggestion, the cache contents are untouched by the failed request, no
further provider call is made, and the rate-limiter timestamp holds the
admitted-check value `now`, exactly as for a successful request. -/
theorem provider_error_contained (st : EngineState) (now delay_ms : ℚ)
    (context_before cursor_line context_after msg : List Char)
    (hpass : ¬ now - st.last_request_time < delay_ms)
    (hmiss : dictGet st.completion_cache
        (create_cache_key context_before context_after cursor_line) = none) :
    get_completion st now delay_ms context_before cursor_line context_after (.raises msg)
      = (none, { st with last_request_time := now }) := by
  simp [get_completion, should_debounce, hpass, hmiss]

/-- Witness for C8 on an empty cache with an admitted request. -/
theorem provider_error_contained_witness :
    get_completion ⟨0, []⟩ 1000 500 (("b").data) (("l").data) (("a").data)
        (.raises ("boom".data))
      = (none, ⟨1000, []⟩) :=
  provider_error_contained ⟨0, []⟩ 1000 500 (("b").data) (("l").data) (("a").data)
    ("boom".data) (by norm_num) (by decide)

/-- C9 counterexample: the capacity bound consumed by the code is not the
configured `cacheCapacity`: with a configured capacity of 1 the cache
still grows to 2 entries after a put, because `get_completion` compares
the size against the literal 50 and never reads a capacity setting. -/
theorem cache_capacity_counterexample :
    ¬ (∀ (cacheCapacity : Nat) (d : Cache) (k v : List Char),
        d.length ≤ cacheCapacity → (cache_put d k v).length ≤ cacheCapacity) := by
  intro h
  have h2 := h 1 [(("a").data, ("x").data)] (("b").data) (("y").data) (by decide)
  revert h2
  decide

/-- C9 amended: the cache's capacity bound is the fixed constant 50,
irrespective of any configured value: a put on a cache holding at most
50 entries leaves at most 50 entries. -/
theorem cache_bounded_by_fifty (d : Cache) (k v : List Char) (h : d.length ≤ 50) :
    (cache_put d k v).length ≤ 50 := by
  have hset : (dictSet d k v).length ≤ d.length + 1 := by
    rw [dictSet]
    split
    · simp
    · simp
  simp only [cache_put]
  split
  · rename_i hgt
    rw [List.length_tail]
    omega
  · rename_i hle
    omega

/-- Witness for C9 amended on a singleton cache. -/
theorem cache_bounded_by_fifty_witness :
    (cache_put [(("a").data, ("x").data)] (("b").data) (("y").data)).length ≤ 50 :=
  cache_bounded_by_fifty [(("a").data, ("x").data)] (("b").data) (("y").data) (by decide)

/-! ### The editor (code_editor.py): Tk text widget model -/

/-- A character of the text widget together with its "ghost_text" tag
flag; Tk tags travel with the characters they are attached to. -/
abbrev TChar := Char × Bool

/-- The widget content: a flat character sequence in which lines are
separated by newline characters. -/
abbrev Doc := List TChar

/-- A Tk text index `line.col` (line is 1-based, column 0-based). -/
abbrev Pos := Nat × Nat

/-- Helper of `splitLines`, carrying the (reversed) current line. -/
def splitLinesAux : Doc → List TChar → List (List TChar)
  | [], acc => [acc.reverse]
  | c :: rest, acc =>
      if c.1 = '\n' then acc.reverse :: splitLinesAux rest []
      else splitLinesAux rest (c :: acc)

/-- The lines of the widget (an empty widget has one empty line). -/
def splitLines (doc : Doc) : List (List TChar) := splitLinesAux doc []

/-- Resolve a `line.col` index to a character offset, clamping the line
and the column the way Tk clamps well-formed out-of-range indices. -/
def offsetOfPos (doc : Doc) (p : Pos) : Nat :=
  let ls := splitLines doc
  let l := min (max p.1 1) ls.length
  ((ls.take (l - 1)).map (fun ln => ln.length + 1)).sum + min p.2 (ls.getD (l - 1) []).length

/-- Helper of `posOfOffset`: walk the lines consuming the offset. -/
def posOfOffsetAux : List (List TChar) → Nat → Nat → Pos
  | [], _, lineNo => (lineNo, 0)
  | [ln], off, lineNo => (lineNo, min off ln.length)
  | ln :: rest, off, lineNo =>
      if off ≤ ln.length then (lineNo, off)
      else posOfOffsetAux rest (off - (ln.length + 1)) (lineNo + 1)

/-- The `line.col` index of a character offset (clamped at the end). -/
def posOfOffset (doc : Doc) (off : Nat) : Pos := posOfOffsetAux (splitLines doc) off 1

/-- Whether the character at an offset carries the "ghost_text" tag
(`tag_names` membership); false past the end of the document. -/
def tagAt (doc : Doc) (off : Nat) : Bool :=
  match doc.get? off with
  | some tc => tc.2
  | none => false

/-- The text (without tag flags) between two character offsets
(`text_editor.get`). -/
def docSlice (doc : Doc) (a b : Nat) : List Char :=
  ((doc.drop a).take (b - a)).map Prod.fst

/-- The editor's suggestion-related state: widget content, the INSERT
mark, and the two ghost-text fields set in `__init__`. -/
structure EditorState where
  doc : Doc
  cursor : Pos
  ghost_text_start_pos : Option Pos
  current_completion : List Char
deriving DecidableEq

/-- The verification made by `clear_ghost_text` before deleting: the
anchor position still carries the "ghost_text" tag and the span of the
remembered length at the remembered anchor still reads exactly as the
remembered suggestion text. -/
def ghost_still_ours (s : EditorState) (gp : Pos) : Bool :=
  tagAt s.doc (offsetOfPos s.doc gp) &&
  decide (docSlice s.doc (offsetOfPos s.doc gp)
      (min (offsetOfPos s.doc gp + s.current_completion.length) s.doc.length)
    = s.current_completion)

/-- Translation of `clear_ghost_text`: when a suggestion is active,
delete the remembered span only if it still carries the tag and reads
exactly as the remembered text, and always reset the two state fields;
when no suggestion is active, do nothing. -/
def clear_ghost_text (s : EditorState) : EditorState :=
  match s.ghost_text_start_pos with
  | none => s
  | some gp =>
      if s.current_completion = [] then s
      else
        { s with
          doc :=
            if ghost_still_ours s gp then
              s.doc.take (offsetOfPos s.doc gp)
                ++ s.doc.drop
                  (min (offsetOfPos s.doc gp + s.current_completion.length) s.doc.length)
            else s.doc,
          ghost_text_start_pos := none,
          current_completion := [] }

/-- Translation of `accept_completion`: when a suggestion is active,
remove the "ghost_text" tag from its span (the characters stay), move
the cursor to the end of the span, and reset the state fields. -/
def accept_completion (s : EditorState) : EditorState :=
  if s.current_completion = [] then s
  else
    match s.ghost_text_start_pos with
    | none => s
    | some gp =>
        let startOff := offsetOfPos s.doc gp
        let endOff := min (startOff + s.current_completion.length) s.doc.length
        let doc' := s.doc.take startOff
          ++ ((s.doc.drop startOff).take (endOff - startOff)).map (fun tc => (tc.1, false))
          ++ s.doc.drop endOff
        { doc := doc',
          cursor := posOfOffset doc' endOff,
          ghost_text_start_pos := none,
          current_completion := [] }

/-- Translation of `_show_completion`: drop the result if the cursor
moved since the request was issued; otherwise clear any previous ghost
text, strip the completion, trim it against the last token of the line
before the cursor, and, when a non-empty remainder is left, insert it as
tagged ghost text at the request position and record the suggestion. -/
def show_completion (s : EditorState) (completion : List Char) (cursor_pos : Pos) :
    EditorState :=
  if s.cursor ≠ cursor_pos then s
  else
    let s1 := clear_ghost_text s
    let comp := pyStrip completion
    if comp = [] then s1
    else
      let cursorOff := offsetOfPos s1.doc cursor_pos
      let current_word :=
        (pySplit (docSlice s1.doc (offsetOfPos s1.doc (cursor_pos.1, 0)) cursorOff)).getLastD []
      let trimmed := trim_completion_overlap current_word comp
      if trimmed = [] then s1
      else
        { doc := s1.doc.take cursorOff
            ++ trimmed.map (fun c => (c, true))
            ++ s1.doc.drop cursorOff,
          cursor := cursor_pos,
          ghost_text_start_pos := some cursor_pos,
          current_completion := trimmed }

/-- Column of the true end of a line: the Tk index `line.end` resolves
to the line's length as its column. -/
def lineEndCol (doc : Doc) (l : Nat) : Nat := ((splitLines doc).getD (l - 1) []).length

/-- The `current_line` computed by `get_context_around_cursor`: the
cursor's line up to the ghost anchor when the ghost text starts on the
cursor's line, else up to the cursor. -/
def context_current_line (s : EditorState) : List Char :=
  match s.ghost_text_start_pos with
  | some gp =>
      if gp.1 = s.cursor.1 then
        docSlice s.doc (offsetOfPos s.doc (s.cursor.1, 0)) (offsetOfPos s.doc gp)
      else docSlice s.doc (offsetOfPos s.doc (s.cursor.1, 0)) (offsetOfPos s.doc s.cursor)
  | none => docSlice s.doc (offsetOfPos s.doc (s.cursor.1, 0)) (offsetOfPos s.doc s.cursor)

/-- The logical end-of-line column computed by `request_ai_completion`:
the ghost anchor's column when ghost text starts on the cursor's line,
else the true end-of-line column. -/
def logical_line_end_col (s : EditorState) : Nat :=
  match s.ghost_text_start_pos with
  | some gp => if gp.1 = s.cursor.1 then gp.2 else lineEndCol s.doc s.cursor.1
  | none => lineEndCol s.doc s.cursor.1

/-- How a trigger leaves the guard sequence of `request_ai_completion`. -/
inductive TriggerDecision
  | debounced
  | lineTooShort
  | notAtLineEnd
  | proceed
deriving DecidableEq

/-- The guard sequence of `request_ai_completion` after the AI-enabled
check: the editor-level 500 ms debounce (times in seconds), the
minimum-content check on the stripped current line, and the
logical-end-of-line check with its one-character tolerance; a trigger
passing all three starts the completion thread (the engine's rate
limiter, cache and request path). -/
def request_ai_completion_gate (s : EditorState) (now last_completion_request : ℚ) :
    TriggerDecision :=
  if now - last_completion_request < 1/2 then .debounced
  else if (pyStrip (context_current_line s)).length < 1 then .lineTooShort
  else if s.cursor.2 < logical_line_end_col s - 1 then .notAtLineEnd
  else .proceed

/-- The consistency invariant on the two suggestion fields: the anchor is
absent exactly when the remembered text is empty. -/
abbrev suggestion_inv (s : EditorState) : Prop :=
  s.ghost_text_start_pos = none ↔ s.current_completion = []

/-- The editor state right after `__init__`. -/
def initialEditorState : EditorState :=
  { doc := [], cursor := (1, 0), ghost_text_start_pos := none, current_completion := [] }

example : offsetOfPos [('a', false), ('b', false), ('\n', false), ('c', false), ('d', false)]
    (2, 1) = 4 := by decide
example : clear_ghost_text
    ⟨[('a', false), ('b', true), ('c', true)], (1, 1), some (1, 1), ("bc".data)⟩
    = ⟨[('a', false)], (1, 1), none, []⟩ := by decide
example : clear_ghost_text
    ⟨[('a', false), ('x', false), ('c', true)], (1, 1), some (1, 1), ("bc".data)⟩
    = ⟨[('a', false), ('x', false), ('c', true)], (1, 1), none, []⟩ := by decide

/-- C4: a provider result delivered back to `_show_completion` after the
cursor has moved away from the position recorded at request time is
discarded as stale: the document gets no ghost text, no suggestion is
recorded, and the whole pre-existing editor state is left untouched. -/
theorem stale_response_is_noop (s : EditorState) (completion : List Char) (cursor_pos : Pos)
    (h : s.cursor ≠ cursor_pos) :
    show_completion s completion cursor_pos = s := by
  rw [show_completion, if_pos h]

/-- Witness for C4: the cursor sits at 1.0 while the request was issued
at 1.1, so the late result changes nothing. -/
theorem stale_response_is_noop_witness :
    show_completion ⟨[], (1, 0), none, []⟩ ("x".data) (1, 1) = ⟨[], (1, 0), none, []⟩ :=
  stale_response_is_noop ⟨[], (1, 0), none, []⟩ ("x".data) (1, 1) (by decide)

/-- C5: dismissal deletes from the document only when a suggestion is
active and the remembered span still verifies (tag still present and
span text equal to the remembered text); when the verification fails
only the in-memory fields are reset and the document is untouched; and
dismissing with no active suggestion is a no-op (and, the model being a
total function, never raises). -/
theorem dismissal_verifies_span (s : EditorState) :
    ((clear_ghost_text s).doc ≠ s.doc →
        ∃ gp, s.ghost_text_start_pos = some gp ∧ s.current_completion ≠ [] ∧
          ghost_still_ours s gp = true) ∧
    (∀ gp, s.ghost_text_start_pos = some gp → s.current_completion ≠ [] →
        ghost_still_ours s gp = false →
        clear_ghost_text s
          = { s with ghost_text_start_pos := none, current_completion := [] }) ∧
    (s.ghost_text_start_pos = none → clear_ghost_text s = s) := by
  refine ⟨?_, ?_, ?_⟩
  · intro hne
    cases hgp : s.ghost_text_start_pos with
    | none =>
        rw [show clear_ghost_text s = s by simp [clear_ghost_text, hgp]] at hne
        exact absurd rfl hne
    | some gp =>
        by_cases hcomp : s.current_completion = []
        · rw [show clear_ghost_text s = s by simp [clear_ghost_text, hgp, hcomp]] at hne
          exact absurd rfl hne
        · by_cases hok : ghost_still_ours s gp = true
          · exact ⟨gp, rfl, hcomp, hok⟩
          · exfalso
            apply hne
            simp [clear_ghost_text, hgp, hcomp, hok]
  · intro gp hgp hcomp hbad
    simp [clear_ghost_text, hgp, hcomp, hbad]
  · intro hgp
    simp [clear_ghost_text, hgp]

/-- Witness for C5: dismissing with no active suggestion is a no-op. -/
theorem dismissal_verifies_span_witness :
    clear_ghost_text ⟨[('a', false)], (1, 1), none, []⟩ = ⟨[('a', false)], (1, 1), none, []⟩ :=
  (dismissal_verifies_span ⟨[('a', false)], (1, 1), none, []⟩).2.2 rfl

/-- C6: a trigger is rejected before any request when the current line's
text before the cursor strips to empty or when the cursor is not within
one character of the logical end of the line (the ghost anchor column
when the ghost text starts on the cursor's line, the true end-of-line
column otherwise); a trigger that passes the editor debounce and
satisfies neither rejection condition proceeds to the completion
thread's rate-limit/cache/request path. -/
theorem trigger_guard_rejects (s : EditorState) (now last : ℚ) :
    ((pyStrip (context_current_line s) = [] ∨ s.cursor.2 < logical_line_end_col s - 1) →
        request_ai_completion_gate s now last ≠ .proceed) ∧
    (¬ now - last < 1/2 → pyStrip (context_current_line s) ≠ [] →
        ¬ s.cursor.2 < logical_line_end_col s - 1 →
        request_ai_completion_gate s now last = .proceed) := by
  have hiff : ((pyStrip (context_current_line s)).length < 1)
      ↔ pyStrip (context_current_line s) = [] := by
    rw [Nat.lt_one_iff, List.length_eq_zero]
  constructor
  · intro hrej
    rw [request_ai_completion_gate]
    split_ifs with h1 h2 h3
    · simp
    · simp
    · simp
    · rcases hrej with hshort | hmid
      · exact absurd (hiff.mpr hshort) h2
      · exact absurd hmid h3
  · intro hdeb hshort hmid
    have h2 : ¬ (pyStrip (context_current_line s)).length < 1 := fun hc => hshort (hiff.mp hc)
    rw [request_ai_completion_gate, if_neg hdeb, if_neg h2, if_neg hmid]

/-- Witness for C6: one character on the line, cursor at its end, no
debounce: the gate proceeds. -/
theorem trigger_guard_rejects_witness :
    request_ai_completion_gate ⟨[('x', false)], (1, 1), none, []⟩ 10 0 = .proceed :=
  (trigger_guard_rejects ⟨[('x', false)], (1, 1), none, []⟩ 10 0).2
    (by norm_num) (by decide) (by decide)

lemma suggestion_inv_clear {s : EditorState} (h : suggestion_inv s) :
    suggestion_inv (clear_ghost_text s) := by
  cases hgp : s.ghost_text_start_pos with
  | none => simpa [clear_ghost_text, hgp] using h
  | some gp =>
      by_cases hcomp : s.current_completion = []
      · have hnone := h.mpr hcomp
        rw [hgp] at hnone
        exact absurd hnone (by simp)
      · simp [clear_ghost_text, hgp, hcomp, suggestion_inv]

lemma suggestion_inv_accept {s : EditorState} (h : suggestion_inv s) :
    suggestion_inv (accept_completion s) := by
  by_cases hcomp : s.current_completion = []
  · simpa [accept_completion, hcomp] using h
  · cases hgp : s.ghost_text_start_pos with
    | none => exact absurd (h.mp hgp) hcomp
    | some gp => simp [accept_completion, hcomp, hgp, suggestion_inv]

lemma suggestion_inv_show {s : EditorState} (h : suggestion_inv s)
    (completion : List Char) (cursor_pos : Pos) :
    suggestion_inv (show_completion s completion cursor_pos) := by
  simp only [show_completion]
  split_ifs with hc hcomp htrim
  · exact h
  · exact suggestion_inv_clear h
  · exact suggestion_inv_clear h
  · exact ⟨fun hx => absurd hx (by simp), fun hx => absurd hx htrim⟩

/-- C10: suggestion-state consistency: the anchor is absent exactly when
the remembered text is empty; the invariant holds initially and every
suggestion-state operation (showing a resolved completion, dismissal,
acceptance) either sets both fields together (a non-empty trimmed text
with its anchor) or clears both together. -/
theorem suggestion_state_consistent (s : EditorState) (h : suggestion_inv s) :
    suggestion_inv initialEditorState ∧
    suggestion_inv (clear_ghost_text s) ∧
    suggestion_inv (accept_completion s) ∧
    (∀ completion cursor_pos, suggestion_inv (show_completion s completion cursor_pos)) :=
  ⟨by simp [initialEditorState, suggestion_inv],
   suggestion_inv_clear h,
   suggestion_inv_accept h,
   fun completion cursor_pos => suggestion_inv_show h completion cursor_pos⟩

/-- Witness for C10: the invariant is preserved by showing a completion
from the initial state. -/
theorem suggestion_state_consistent_witness :
    suggestion_inv (show_completion initialEditorState ("x".data) (1, 0)) :=
  (suggestion_state_consistent initialEditorState (by decide)).2.2.2 ("x".data) (1, 0)
